import Mathlib

/-!
Verification development for the scan-exporter repository.

The scan engine (package `scan`) and the metrics sink (package `metrics`)
are shallowly embedded below: pure Go functions become Lean functions,
Go maps become association lists (so presence of a key is observable),
Go `time.Time` values become naturals (`0` is the zero instant),
Go `int64` values become `Int` with explicit two's-complement wrap where
overflow matters, and fallible Go code returns `Option` (a runtime panic
is modelled as `none`).  External collaborators (the standard duration
parser, the network probes, the environment, the Redis client) are passed
in as explicit function parameters.
-/

/-- Split a character list at every occurrence of the separator, keeping
empty segments, as Go's `strings.Split` does for a one-character
separator.  Structural recursion, so it evaluates inside the kernel. -/
def splitChars (sep : Char) : List Char → List (List Char)
  | [] => [[]]
  | c :: rest =>
    let r := splitChars sep rest
    if c = sep then [] :: r
    else
      match r with
      | [] => [[c]]
      | h :: t => (c :: h) :: t

/-- Go's `strings.Split(s, sep)` for the one-character separators the
source uses (`","`, `"-"`, `"d"`): always returns at least one field. -/
def strSplit (s : String) (sep : Char) : List String :=
  (splitChars sep s.data).map (fun cs => String.mk cs)

/-- Model of Go `strconv.Atoi`: an optional sign followed by a non-empty
run of decimal digits, rejected when the value overflows a 64-bit int
(the bounds are `-2^63` and `2^63 - 1`, written out in decimal). -/
def atoi (s : String) : Option Int :=
  let (sign, digits) :=
    match s.data with
    | '+' :: rest => ((1 : Int), rest)
    | '-' :: rest => ((-1 : Int), rest)
    | l => ((1 : Int), l)
  if digits = [] then none
  else if digits.all Char.isDigit then
    let v : Int := sign * (digits.foldl (fun a c => a * 10 + ((c.toNat : Int) - ('0'.toNat : Int))) (0 : Int))
    if -9223372036854775808 ≤ v ∧ v < 9223372036854775808 then some v else none
  else none

/-- The list of integers `lo, lo+1, ..., hi` (empty when `hi < lo`),
modelling the Go loop `for i := min; i <= max; i++`. -/
def intRange (lo hi : Int) : List Int :=
  (List.range (hi + 1 - lo).toNat).map (fun k => lo + (k : Int))

/-- Model of `common.StringInSlice`: membership test on a string slice. -/
def stringInSlice (a : String) (l : List String) : Bool :=
  l.any (fun b => b = a)

/-- The `decomposedRange` of a token in `readPortsRange`: a token without
a dash is doubled, one with dashes is split on them, as in the source. -/
def dashFields (spec : String) : List String :=
  if spec.data.contains '-' = false then [spec, spec] else strSplit spec '-' 

/-- One token of `readPortsRange`'s comma-separated input (the body of the
Go `switch spec`): `all`, `reserved`, or a (possibly dashed) numeric range.
Only the first and last dash-separated fields are consulted. -/
def tokenPorts (spec : String) : Option (List String) :=
  if spec = "all" then
    some ((intRange 1 65535).map (fun i => toString i))
  else if spec = "reserved" then
    some ((intRange 1 1023).map (fun i => toString i))
  else
    match atoi ((dashFields spec).headD ""), atoi ((dashFields spec).getLastD "") with
    | some mn, some mx =>
      if mx < mn then none
      else if 65535 < mx then none
      else some ((intRange mn mx).map (fun i => toString i))
    | some _, none => none
    | none, _ => none

/-- The token loop of `readPortsRange`: empty tokens are skipped, the
first failing token aborts, port strings accumulate left to right. -/
def readLoop : List String → Option (List String)
  | [] => some []
  | spec :: rest =>
    if spec = "" then readLoop rest
    else
      match tokenPorts spec with
      | none => none
      | some ps =>
        match readLoop rest with
        | none => none
        | some tail => some (ps ++ tail)

/-- Model of `scan.readPortsRange`: expand a comma-separated range
expression into the list of port strings, or fail (`BadRange`). -/
def readPortsRange (ranges : String) : Option (List String) :=
  readLoop (strSplit ranges ',')

/-- Model of `scan.sortPorts`: convert every port string to an integer
(failing if any is unparsable), sort numerically, convert back. -/
def sortPorts (ports : List String) : Option (List String) :=
  (ports.mapM atoi).map
    (fun holder => (holder.insertionSort (· ≤ ·)).map (fun pint => toString pint))

/-- The `jobMsg` structure of the scan package: the data sent to and by
workers.  `jobCount` is a natural since Go only ever stores `len(jobs)`. -/
structure JobMsg where
  id : String
  jobCount : Nat
  ip : String
  protocol : String
  ports : List String
deriving DecidableEq, Repr

/-- The `metrics.ResMsg` structure: all the data of a finished scan. -/
structure ResMsg where
  Name : String
  IP : String
  Protocol : String
  OpenPorts : List String
  UnexpectedPorts : List String
  ClosedPorts : List String
deriving DecidableEq, Repr

/-- Lookup in an association list modelling a Go map (`none` means the
key is absent from the map). -/
def alookup {V : Type} : List (String × V) → String → Option V
  | [], _ => none
  | (k', v) :: rest, k => if k = k' then some v else alookup rest k

/-- Store a key in an association list modelling a Go map assignment. -/
def aset {V : Type} (m : List (String × V)) (k : String) (v : V) : List (String × V) :=
  (k, v) :: m.filter (fun p => decide (p.1 ≠ k))

/-- Model of `Target.checkAccordance`: parse the configured `expected`
range for the protocol, then collect open-but-unexpected and
expected-but-closed ports in traversal order.  The Boolean is the error
flag (`false` when the expected range fails to parse, in which case both
lists are the empty slices the Go function was initialised with). -/
def checkAccordance (expectedRng : String) (openList : List String) :
    List String × List String × Bool :=
  match readPortsRange expectedRng with
  | none => ([], [], false)
  | some expected =>
    (openList.foldl (fun acc port => if stringInSlice port expected then acc else acc ++ [port]) [],
     expected.foldl (fun acc port => if stringInSlice port openList then acc else acc ++ [port]) [],
     true)

/-- The mutable state of one target's receiver goroutine, together with
the target's `startTime` map (`0` models the zero `time.Time` instant). -/
structure AggState where
  openPorts : List (String × List String)
  jobsStarted : List (String × Nat)
  startTime : String → Nat

/-- The all-empty receiver state (fresh maps; every protocol idle). -/
def emptyAgg : AggState := ⟨[], [], fun _ => 0⟩

/-- One iteration of `Target.receiver` on an incoming partial result:
increment `jobsStarted[res.id]`, append the ports to `openPorts[res.id]`,
and when the count reaches `res.jobCount` clear `startTime[res.protocol]`
and emit a `ResMsg` (with accordance lists for non-ICMP protocols).
Neither map entry is deleted.  `expectedOf` maps a protocol to its
configured `expected` range string (`t.protos[proto].expected`). -/
def receiverStep (tName : String) (expectedOf : String → String) (s : AggState)
    (res : JobMsg) : AggState × Option ResMsg :=
  let started := (alookup s.jobsStarted res.id).getD 0 + 1
  let op := (alookup s.openPorts res.id).getD [] ++ res.ports
  let s1 : AggState :=
    ⟨aset s.openPorts res.id op, aset s.jobsStarted res.id started, s.startTime⟩
  if started = res.jobCount then
    let s2 : AggState :=
      ⟨s1.openPorts, s1.jobsStarted, fun p => if p = res.protocol then 0 else s1.startTime p⟩
    let acc := if res.protocol = "icmp" then ([], [], true)
               else checkAccordance (expectedOf res.protocol) op
    (s2, some ⟨tName, res.ip, res.protocol, op, acc.1, acc.2.1⟩)
  else (s1, none)

/-- Run the receiver over a list of incoming partial results, collecting
the emitted scan outcomes in order. -/
def receiverRun (tName : String) (expectedOf : String → String) :
    AggState → List JobMsg → AggState × List ResMsg
  | s, [] => (s, [])
  | s, m :: rest =>
    let step := receiverStep tName expectedOf s m
    let tail := receiverRun tName expectedOf step.1 rest
    (tail.1, match step.2 with | none => tail.2 | some r => r :: tail.2)

/-- The slicing loop of `Target.createJobs`, fuelled by the remaining
iteration count (`rem = t.workers - i`).  `size` is decremented once when
`i` reaches `numBigger`; a zero size breaks out of the loop. -/
def jobsLoop (ip proto : String) (ports : List String) (numBigger : Nat) :
    Nat → Nat → Nat → Nat → List JobMsg
  | 0, _, _, _ => []
  | rem + 1, i, idx, size =>
    let size' := if i = numBigger then size - 1 else size
    if size' = 0 then []
    else ⟨"", 0, ip, proto, (ports.drop idx).take size'⟩ ::
      jobsLoop ip proto ports numBigger rem (i + 1) (idx + size') size'

/-- The static configuration of one scan target (the immutable part of
the Go `Target` structure used by the trigger loop and planner). -/
structure TargetCfg where
  name : String
  ip : String
  workers : Nat
  portsToScan : List (String × List String)

/-- Model of `Target.createJobs`: fail (`UnknownProtocol`) when the
protocol is not configured; one empty job for ICMP; otherwise split the
port list into balanced contiguous slices.  (The Go code divides by
`t.workers`, panicking when it is zero; all properties below assume
`0 < workers`.) -/
def createJobs (t : TargetCfg) (proto : String) : Option (List JobMsg) :=
  match alookup t.portsToScan proto with
  | none => none
  | some ps =>
    if proto = "icmp" then some [⟨"", 0, t.ip, proto, []⟩]
    else
      let defSize := ps.length / t.workers
      let numBigger := ps.length - defSize * t.workers
      some (jobsLoop t.ip proto ps numBigger t.workers 0 0 (defSize + 1))

/-- What the trigger loop of `Target.Run` does with one trigger. -/
inductive TriggerOutcome where
  | dropped
  | errorExit
  | enqueued (jobs : List JobMsg)
deriving DecidableEq, Repr

/-- One iteration of the trigger loop in `Target.Run`: when
`t.startTime[proto].IsZero()` the loop logs "a scan already started" at
warn level and drops the tick; otherwise it plans jobs (exiting on a
planner error) and enqueues them all with the fresh `jobID` and the job
count. -/
def triggerStep (t : TargetCfg) (startTime : String → Nat) (jobID : String)
    (proto : String) : TriggerOutcome :=
  if startTime proto = 0 then .dropped
  else
    match createJobs t proto with
    | none => .errorExit
    | some jobs =>
      .enqueued (jobs.map (fun j => ⟨jobID, jobs.length, j.ip, j.protocol, j.ports⟩))

/-- Model of `Target.worker` on one job taken from the jobs queue,
returning the list of partial results pushed onto the results queue.
The probes are external effects passed in as functions: `tcpScan` has no
error path, `udpScan` and `icmpScan` return `none` on a probe error.
For TCP/UDP an erroring or failing probe leaves the port out of the
partial; for ICMP a probe error `continue`s the outer loop, so no
partial at all is pushed for that job. -/
def worker (tcpScan : String → String → Bool) (udpScan : String → String → Option Bool)
    (icmpScan : String → Option Bool) (job : JobMsg) : List JobMsg :=
  let res : JobMsg := ⟨job.id, job.jobCount, job.ip, job.protocol, []⟩
  if job.protocol = "tcp" then
    [⟨res.id, res.jobCount, res.ip, res.protocol,
      job.ports.foldl (fun acc p => if tcpScan job.ip p then acc ++ [p] else acc) []⟩]
  else if job.protocol = "udp" then
    [⟨res.id, res.jobCount, res.ip, res.protocol,
      job.ports.foldl (fun acc p =>
        match udpScan job.ip p with
        | none => acc
        | some success => if success then acc ++ [p] else acc) []⟩]
  else if job.protocol = "icmp" then
    match icmpScan job.ip with
    | none => []
    | some success =>
      [⟨res.id, res.jobCount, res.ip, res.protocol, if success then ["1"] else []⟩]
  else []

/-- Go's `strings.ContainsAny(period, "hms")`. -/
def containsHMS (s : String) : Bool :=
  s.data.any (fun c => c = 'h' || c = 'm' || c = 's')

/-- Two's-complement wrap-around of Go `int64` arithmetic. -/
def wrap64 (x : Int) : Int :=
  (x + 9223372036854775808) % 18446744073709551616 - 9223372036854775808

/-- Model of `scan.getDuration`: a period containing `h`, `m` or `s` is
handed to the standard duration parser (an external collaborator passed
in as `parseDur`, returning nanoseconds); otherwise the text before the
first `d` (the whole string when there is no `d`) must parse as an
integer day count, which is multiplied out to nanoseconds with Go's
wrapping `int64` arithmetic. -/
def getDuration (parseDur : String → Option Int) (period : String) : Option Int :=
  if containsHMS period then parseDur period
  else
    match atoi ((strSplit period 'd').headD "") with
    | none => none
    | some days => some (wrap64 (wrap64 (days * 3600000000000) * 24))

/-- The removal loop of `metrics.icmpNotResponding`: Go ranges over the
slice's original length while the body re-reads (and truncates) the
package-level slice, so the iteration count is fixed at entry; an index
at or beyond the current length is an index-out-of-range panic,
modelled as `none`. -/
def removeLoop (ip : String) : Nat → Nat → List String → Option (List String)
  | 0, _, cur => some cur
  | rem + 1, idx, cur =>
    if idx < cur.length then
      if cur.getD idx "" = ip then
        removeLoop ip rem (idx + 1) ((cur.set idx (cur.getD (cur.length - 1) "")).dropLast)
      else removeLoop ip rem (idx + 1) cur
    else none

/-- Model of `metrics.icmpNotResponding` acting on the package state
`(notRespondingList, numOfDownTargets)`: a responding target already in
the list is decremented and removed (via the panicking loop above); a
non-responding target not yet in the list is appended and the gauge
incremented; otherwise nothing changes.  `none` models a panic. -/
def icmpNotResponding (ports : List String) (ip : String)
    (lst : List String) (gauge : Int) : Option (List String × Int) :=
  let isResponding := decide (ports.length ≠ 0)
  let alreadyNotResponding := stringInSlice ip lst
  if isResponding && alreadyNotResponding then
    match removeLoop ip lst.length 0 lst with
    | none => none
    | some lst' => some (lst', gauge - 1)
  else if !isResponding && !alreadyNotResponding then
    some (lst ++ [ip], gauge + 1)
  else
    some (lst, gauge)

/-- Run `icmpNotResponding` over a sequence of ICMP outcomes
`(OpenPorts, IP)`, propagating a panic. -/
def runIcmp : List String × Int → List (List String × String) → Option (List String × Int)
  | st, [] => some st
  | st, (ports, ip) :: rest =>
    match icmpNotResponding ports ip st.1 st.2 with
    | none => none
    | some st' => runIcmp st' rest

/-- An abstract Redis client value (`redis.NewClient(opt)`). -/
structure RedisClient where
  opt : String
deriving DecidableEq, Repr

/-- The package-level mutable state of the `metrics` package that
`initRedisClient` could touch: the `rdb` package variable. -/
structure MetricsPkg where
  rdb : Option RedisClient
deriving DecidableEq, Repr

/-- The zero value of the `metrics` package state: the package-level
`rdb` pointer starts out nil. -/
def metricsPkgZero : MetricsPkg := ⟨none⟩

/-- Model of `metrics.initRedisClient`.  The environment, URL parser and
ping are external effects passed in as functions; the Boolean result is
the success flag (`false` models a returned error).  The Go line
`rdb := redis.NewClient(opt)` uses `:=`, declaring a new function-local
variable that shadows the package-level `rdb`, so the package state is
returned unchanged on every path. -/
def initRedisClient (getenv : String → String) (parseURL : String → Option String)
    (ping : RedisClient → Bool) (s : MetricsPkg) : MetricsPkg × Bool :=
  let redisURL := getenv "REDIS_URL"
  let redisURL := if redisURL = "" then "redis://localhost:6379/0" else redisURL
  match parseURL redisURL with
  | none => (s, false)
  | some opt =>
    let rdbLocal := RedisClient.mk opt
    if ping rdbLocal then (s, true) else (s, false)

/-- The kind of a single `initRedisClient` call: its environment, URL
parser and ping outcomes. -/
structure InitCall where
  getenv : String → String
  parseURL : String → Option String
  ping : RedisClient → Bool

/-- Apply a sequence of `initRedisClient` calls to the package state. -/
def applyInits : MetricsPkg → List InitCall → MetricsPkg
  | s, [] => s
  | s, c :: rest => applyInits (initRedisClient c.getenv c.parseURL c.ping s).1 rest

/-- The token grammar exactly as the specification words it: the literal
`all`, the literal `reserved`, a single integer in `[1, 65535]`, or
`lo-hi` with `1 ≤ lo ≤ hi ≤ 65535`.  This definition follows the spec's
words (not the source) so the parser can be compared against it. -/
def specTokenGrammar (t : String) : Bool :=
  t = "all" || t = "reserved" ||
  (match strSplit t '-' with
   | [a] =>
     (match atoi a with
      | some n => decide (1 ≤ n) && decide (n ≤ 65535)
      | none => false)
   | [a, b] =>
     (match atoi a, atoi b with
      | some lo, some hi => decide (1 ≤ lo) && decide (lo ≤ hi) && decide (hi ≤ 65535)
      | _, _ => false)
   | _ => false)


/-- Cut a list into consecutive chunks of the given sizes (specification
device used to characterise the planner's slices). -/
def chunks {α : Type} : List Nat → List α → List (List α)
  | [], _ => []
  | s :: rest, l => l.take s :: chunks rest (l.drop s)

/-- The sequence of slice sizes produced by `jobsLoop`, isolated from the
slicing itself: the same control flow (decrement at `numBigger`, break on
zero) recording only each iteration's size. -/
def sizesFrom (numBigger : Nat) : Nat → Nat → Nat → List Nat
  | 0, _, _ => []
  | rem + 1, i, size =>
    let size' := if i = numBigger then size - 1 else size
    if size' = 0 then [] else size' :: sizesFrom numBigger rem (i + 1) size'

theorem alookup_aset_self {V : Type} (m : List (String × V)) (k : String) (v : V) :
    alookup (aset m k v) k = some v := by
  simp [aset, alookup]

/-- Claim C1: the trigger loop of `Target.Run` drops the tick — logging
"a scan already started" — precisely when `startTime[proto]` is the zero
instant, and plans and enqueues jobs precisely when it is non-zero: the
reverse of the claimed behaviour.  Evaluated at the failing input
(protocol idle, `startTime = 0`) the tick is dropped; with a scan
in flight (`startTime = 7`) jobs are enqueued. -/
theorem trigger_inverted_guard :
    triggerStep ⟨"t", "1.2.3.4", 1, [("tcp", ["22", "80"])]⟩ (fun _ => 0) "rand" "tcp" =
      TriggerOutcome.dropped ∧
    triggerStep ⟨"t", "1.2.3.4", 1, [("tcp", ["22", "80"])]⟩ (fun _ => 7) "rand" "tcp" =
      TriggerOutcome.enqueued [⟨"rand", 1, "1.2.3.4", "tcp", ["22", "80"]⟩] := by
  constructor <;> rfl

/-- Claim C9 (failing input): starting from an empty down-host set,
targets `A` then `B` stop responding (set `[A, B]`, gauge `2`); when `A`
responds again the removal loop ranges over the original length of the
truncated slice and indexes one past its end — an index-out-of-range
panic (`none`) instead of the claimed removal and decrement. -/
theorem icmp_removal_panics :
    runIcmp ([], 0) [([], "A"), ([], "B"), (["1"], "A")] = none ∧
    none ≠ some ((["B"], 1) : List String × Int) := by
  constructor <;> decide

/-- Claim C3 (counterexample): an ICMP job whose probe errors produces no
partial result at all — the `continue` skips the push — refuting "exactly
one partial result per job for TCP, UDP and ICMP alike". -/
theorem worker_icmp_error_cex :
    worker (fun _ _ => false) (fun _ _ => some false) (fun _ => none)
      ⟨"a", 1, "ip", "icmp", []⟩ = [] := by
  rfl

/-- Claim C3 (amended): the worker pushes exactly one partial result per
TCP or UDP job, under any pattern of probe successes, failures and
errors; for an ICMP job it pushes exactly one partial when the probe does
not error and none when it does; unknown protocols push nothing. -/
theorem worker_result_count (tcpScan : String → String → Bool)
    (udpScan : String → String → Option Bool) (icmpScan : String → Option Bool)
    (job : JobMsg) :
    (worker tcpScan udpScan icmpScan job).length =
      (if job.protocol = "tcp" ∨ job.protocol = "udp" then 1
       else if job.protocol = "icmp" then (if (icmpScan job.ip).isSome then 1 else 0)
       else 0) := by
  unfold worker
  by_cases h1 : job.protocol = "tcp"
  · simp [h1]
  · by_cases h2 : job.protocol = "udp"
    · simp [h1, h2]
    · by_cases h3 : job.protocol = "icmp"
      · cases h : icmpScan job.ip <;> simp [h1, h2, h3, h]
      · simp [h1, h2, h3]

/-- Claim C2 (counterexample): a one-job scan completes and the outcome
is emitted, yet the receiver's maps still hold both the `openPorts` and
the `jobsStarted` entry for the scan id — nothing is deleted. -/
theorem receiver_retains_state_cex :
    ((receiverStep "t" (fun _ => "") emptyAgg ⟨"a", 1, "1.2.3.4", "tcp", ["22"]⟩).2).isSome
      = true ∧
    alookup ((receiverStep "t" (fun _ => "") emptyAgg
      ⟨"a", 1, "1.2.3.4", "tcp", ["22"]⟩).1).openPorts "a" = some ["22"] ∧
    alookup ((receiverStep "t" (fun _ => "") emptyAgg
      ⟨"a", 1, "1.2.3.4", "tcp", ["22"]⟩).1).jobsStarted "a" = some 1 := by
  refine ⟨by decide, by decide, by decide⟩

/-- Claim C2 (amended): after every receiver step — in particular after
the step whose count reaches `job_count` and emits the scan outcome —
the aggregator still holds both the `openPorts[scan_id]` entry and the
`jobsStarted[scan_id]` counter entry; the maps are never pruned. -/
theorem receiver_never_deletes (tName : String) (expectedOf : String → String)
    (s : AggState) (m : JobMsg) :
    (alookup ((receiverStep tName expectedOf s m).1).openPorts m.id).isSome = true ∧
    (alookup ((receiverStep tName expectedOf s m).1).jobsStarted m.id).isSome = true := by
  unfold receiverStep
  by_cases h : (alookup s.jobsStarted m.id).getD 0 + 1 = m.jobCount <;>
    simp [h, alookup_aset_self]

theorem initRedisClient_frame (getenv : String → String)
    (parseURL : String → Option String) (ping : RedisClient → Bool) (s : MetricsPkg) :
    (initRedisClient getenv parseURL ping s).1 = s := by
  simp only [initRedisClient]
  cases parseURL (if getenv "REDIS_URL" = "" then "redis://localhost:6379/0"
      else getenv "REDIS_URL") with
  | none => rfl
  | some opt => by_cases h : ping (RedisClient.mk opt) <;> simp [h]

theorem applyInits_id (calls : List InitCall) (s : MetricsPkg) :
    applyInits s calls = s := by
  induction calls generalizing s with
  | nil => rfl
  | cons c rest ih => simp [applyInits, initRedisClient_frame, ih]

/-- Claim C10: `initRedisClient` only binds its new, pinged client to a
function-local variable (`rdb := redis.NewClient(opt)` declares a local
shadowing the package variable), so however many times it runs and
whatever the environment, URL parser or ping report, the package-level
`rdb` keeps its zero value `nil`. -/
theorem rdb_remains_nil (calls : List InitCall) :
    (applyInits metricsPkgZero calls).rdb = none := by
  rw [applyInits_id]
  rfl

/-- Claim C6 (counterexample): the period `"10dx"` contains none of `h`,
`m`, `s` and does not match `<n>d`, yet `getDuration` accepts it as ten
days (`864000000000000` ns) — the text after the first `d` is ignored,
refuting "every period string using any other suffix is rejected". -/
theorem getDuration_suffix_cex :
    getDuration (fun _ => none) "10dx" = some 864000000000000 ∧
    containsHMS "10dx" = false := by
  constructor <;> decide

/-- Claim C6 (amended): a period containing any of `h`, `m`, `s` is
handed verbatim to the standard duration parser; any other period is
accepted exactly when the text before the first `d` (the whole string
when no `d` occurs) parses as an integer `n`, yielding `n × 24` hours
under wrapping 64-bit arithmetic — trailing text after the first `d` is
ignored rather than rejected. -/
theorem getDuration_grammar (parseDur : String → Option Int) (period : String) :
    (containsHMS period = true → getDuration parseDur period = parseDur period) ∧
    (containsHMS period = false →
      getDuration parseDur period =
        (atoi ((strSplit period 'd').headD "")).map
          (fun days => wrap64 (wrap64 (days * 3600000000000) * 24))) := by
  constructor <;> intro h
  · simp [getDuration, h]
  · unfold getDuration
    rw [if_neg (by simp [h])]
    cases ha : atoi ((strSplit period 'd').headD "") <;> rfl

theorem getDuration_grammar_witness :
    getDuration (fun _ => some 42) "5h" = some 42 ∧
    getDuration (fun _ => some 42) "7d" = some 604800000000000 := by
  constructor
  · exact (getDuration_grammar (fun _ => some 42) "5h").1 (by decide)
  · rw [(getDuration_grammar (fun _ => some 42) "7d").2 (by decide)]
    decide

theorem tokenPorts_isSome_iff (t : String) :
    (tokenPorts t).isSome = true ↔
      (t = "all" ∨ t = "reserved" ∨
       ∃ mn mx : Int, atoi ((dashFields t).headD "") = some mn ∧
         atoi ((dashFields t).getLastD "") = some mx ∧ mn ≤ mx ∧ mx ≤ 65535) := by
  unfold tokenPorts
  by_cases h1 : t = "all"
  · simp [h1]
  · by_cases h2 : t = "reserved"
    · simp [h1, h2]
    · cases ha : atoi ((dashFields t).headD "") with
      | none => simp [h1, h2, ha]
      | some mn =>
        cases hb : atoi ((dashFields t).getLastD "") with
        | none => simp [h1, h2, ha, hb]
        | some mx =>
          simp [h1, h2, ha, hb]
          split_ifs with hlt hub <;> simp <;> omega

theorem readLoop_isSome_iff (ts : List String) :
    (readLoop ts).isSome = true ↔ ∀ t ∈ ts, ¬t = "" → (tokenPorts t).isSome = true := by
  induction ts with
  | nil => simp [readLoop]
  | cons spec rest ih =>
    by_cases h : spec = ""
    · subst h
      simpa [readLoop] using ih
    · cases htok : tokenPorts spec with
      | none => simp [readLoop, h, htok]
      | some ps =>
        cases hrest : readLoop rest with
        | none =>
          rw [hrest] at ih
          simp [readLoop, h, htok, hrest] at ih ⊢
          tauto
        | some tail =>
          rw [hrest] at ih
          simp [readLoop, h, htok, hrest] at ih ⊢
          tauto

/-- Claim C4 (counterexample): the expression `"0"` consists of the
single non-empty token `"0"`, which is neither `all`, `reserved`, an
integer in `[1, 65535]` nor a `lo-hi` range with `1 ≤ lo`, yet the
parser accepts it: the code never checks the lower bound. -/
theorem readPortsRange_zero_cex :
    (readPortsRange "0").isSome = true ∧ specTokenGrammar "0" = false ∧
    strSplit "0" ',' = ["0"] := by
  refine ⟨by decide, by decide, by decide⟩

/-- Claim C4 (amended): `parse(expr)` succeeds exactly when every
non-empty comma-separated token is the literal `all`, the literal
`reserved`, or a token whose first and last dash-separated fields (the
token itself, twice, when it has no dash) parse as integers
`mn ≤ mx ≤ 65535` — the claimed lower bound `1 ≤ lo` is not enforced
(so `0` is accepted) and interior fields of multi-dash tokens are
ignored; every other token fails with `BadRange`. -/
theorem readPortsRange_ok_iff (expr : String) :
    (readPortsRange expr).isSome = true ↔
      ∀ t ∈ strSplit expr ',', ¬t = "" →
        (t = "all" ∨ t = "reserved" ∨
         ∃ mn mx : Int, atoi ((dashFields t).headD "") = some mn ∧
           atoi ((dashFields t).getLastD "") = some mx ∧ mn ≤ mx ∧ mx ≤ 65535) := by
  rw [readPortsRange, readLoop_isSome_iff]
  constructor <;> intro H t ht hne
  · exact (tokenPorts_isSome_iff t).mp (H t ht hne)
  · exact (tokenPorts_isSome_iff t).mpr (H t ht hne)

theorem foldl_append_filter {α : Type} (p : α → Bool) (l acc : List α) :
    l.foldl (fun a x => if p x then a else a ++ [x]) acc =
      acc ++ l.filter (fun x => !p x) := by
  induction l generalizing acc with
  | nil => simp
  | cons x xs ih =>
    simp only [List.foldl_cons, List.filter_cons]
    by_cases h : p x
    · simp [h, ih]
    · simp [h, ih]

theorem checkAccordance_filter (expectedRng : String) (openList expected : List String)
    (h : readPortsRange expectedRng = some expected) :
    checkAccordance expectedRng openList =
      (openList.filter (fun p => !stringInSlice p expected),
       expected.filter (fun p => !stringInSlice p openList), true) := by
  simp only [checkAccordance, h]
  rw [foldl_append_filter (fun port => stringInSlice port expected),
    foldl_append_filter (fun port => stringInSlice port openList)]
  simp

/-- Claim C7 (counterexample): a completed one-job TCP scan with open
ports `["1337", "22"]` and empty expected list emits the unexpected list
`["1337", "22"]` in accordance order, while the port sorter would
produce `["22", "1337"]` — the emitted list is not numerically sorted. -/
theorem receiver_unsorted_cex :
    ((receiverStep "t" (fun _ => "") emptyAgg
        ⟨"a", 1, "1.2.3.4", "tcp", ["1337", "22"]⟩).2).map ResMsg.UnexpectedPorts =
      some ["1337", "22"] ∧
    sortPorts ["1337", "22"] = some ["22", "1337"] ∧
    (["1337", "22"] : List String) ≠ ["22", "1337"] := by
  refine ⟨by decide, by decide, by decide⟩

/-- Claim C7 (amended): in every emitted non-ICMP scan outcome the
unexpected list is the open list filtered (in open-list order) by
non-membership in the expected list, and the closed list is the expected
list filtered (in expected-list order) by non-membership in the open
list — accordance order, not the numeric order of the port sorter, which
the receiver applies only to its recap warn logs. -/
theorem receiver_accordance_order (tName : String) (expectedOf : String → String)
    (s : AggState) (m : JobMsg) (r : ResMsg) (expected : List String)
    (hicmp : ¬m.protocol = "icmp")
    (hexp : readPortsRange (expectedOf m.protocol) = some expected)
    (hr : (receiverStep tName expectedOf s m).2 = some r) :
    r.UnexpectedPorts = r.OpenPorts.filter (fun p => !stringInSlice p expected) ∧
    r.ClosedPorts = expected.filter (fun p => !stringInSlice p r.OpenPorts) := by
  simp only [receiverStep] at hr
  by_cases hc : (alookup s.jobsStarted m.id).getD 0 + 1 = m.jobCount
  · rw [if_pos hc] at hr
    simp only [hicmp, if_neg, Option.some.injEq] at hr
    rw [checkAccordance_filter _ _ _ hexp] at hr
    cases hr
    simp
  · rw [if_neg hc] at hr
    cases hr

theorem receiver_accordance_order_witness :
    ¬("tcp" : String) = "icmp" ∧
    readPortsRange "22" = some ["22"] ∧
    (receiverStep "t" (fun _ => "22") emptyAgg ⟨"a", 1, "ip", "tcp", ["1337", "22"]⟩).2 =
      some ⟨"t", "ip", "tcp", ["1337", "22"], ["1337"], []⟩ ∧
    ((⟨"t", "ip", "tcp", ["1337", "22"], ["1337"], []⟩ : ResMsg).UnexpectedPorts =
        (⟨"t", "ip", "tcp", ["1337", "22"], ["1337"], []⟩ : ResMsg).OpenPorts.filter
          (fun p => !stringInSlice p ["22"]) ∧
      (⟨"t", "ip", "tcp", ["1337", "22"], ["1337"], []⟩ : ResMsg).ClosedPorts =
        (["22"] : List String).filter
          (fun p => !stringInSlice p
            (⟨"t", "ip", "tcp", ["1337", "22"], ["1337"], []⟩ : ResMsg).OpenPorts)) :=
  ⟨by decide, by decide, by decide,
    receiver_accordance_order "t" (fun _ => "22") emptyAgg
      ⟨"a", 1, "ip", "tcp", ["1337", "22"]⟩ _ ["22"] (by decide) (by decide) (by decide)⟩

theorem jobsLoop_eq_chunks (ip proto : String) (ports : List String) (nb : Nat) :
    ∀ (rem i idx size : Nat),
      jobsLoop ip proto ports nb rem i idx size =
        (chunks (sizesFrom nb rem i size) (ports.drop idx)).map
          (fun c => (⟨"", 0, ip, proto, c⟩ : JobMsg)) := by
  intro rem
  induction rem with
  | zero => intro i idx size; rfl
  | succ rem ih =>
    intro i idx size
    simp only [jobsLoop, sizesFrom]
    by_cases hz : (if i = nb then size - 1 else size) = 0
    · simp [hz, chunks]
    · simp only [hz, if_false, chunks, List.map_cons]
      congr 1
      rw [ih (i + 1) (idx + (if i = nb then size - 1 else size))
        (if i = nb then size - 1 else size)]
      rw [List.drop_drop, Nat.add_comm]

theorem chunks_flatten {α : Type} :
    ∀ (sz : List Nat) (l : List α), sz.sum = l.length → (chunks sz l).flatten = l := by
  intro sz
  induction sz with
  | nil =>
    intro l h
    simp only [List.sum_nil] at h
    simp [chunks, List.length_eq_zero.mp h.symm]
  | cons s rest ih =>
    intro l h
    simp only [List.sum_cons] at h
    simp only [chunks, List.flatten_cons]
    rw [ih (l.drop s) (by simp; omega)]
    exact List.take_append_drop s l

theorem chunks_map_length {α : Type} :
    ∀ (sz : List Nat) (l : List α), sz.sum = l.length →
      (chunks sz l).map List.length = sz := by
  intro sz
  induction sz with
  | nil => intro l h; rfl
  | cons s rest ih =>
    intro l h
    simp only [List.sum_cons] at h
    simp only [chunks, List.map_cons, List.length_take]
    rw [ih (l.drop s) (by simp; omega)]
    congr 1
    omega

theorem sizesFrom_past (nb : Nat) :
    ∀ (rem i size : Nat), nb < i → 0 < size →
      sizesFrom nb rem i size = List.replicate rem size := by
  intro rem
  induction rem with
  | zero => intro i size _ _; rfl
  | succ rem ih =>
    intro i size hi hs
    have hne : ¬i = nb := by omega
    simp only [sizesFrom, hne, if_false]
    have hz : ¬size = 0 := by omega
    simp only [hz, if_false, List.replicate_succ]
    rw [ih (i + 1) size (by omega) hs]

theorem sizesFrom_pivot (nb rem size : Nat) :
    sizesFrom nb (rem + 1) nb size =
      if size - 1 = 0 then [] else (size - 1) :: List.replicate rem (size - 1) := by
  simp only [sizesFrom, eq_self_iff_true, if_true]
  by_cases hz : size - 1 = 0
  · simp [hz]
  · simp only [hz, if_false]
    rw [sizesFrom_past nb rem (nb + 1) (size - 1) (by omega) (by omega)]

theorem sizesFrom_pre (nb : Nat) :
    ∀ (k rem i size : Nat), i + k = nb → 0 < size →
      sizesFrom nb (rem + k) i size =
        List.replicate k size ++ sizesFrom nb rem (i + k) size := by
  intro k
  induction k with
  | zero => intro rem i size _ _; simp
  | succ k ih =>
    intro rem i size hi hs
    have hne : ¬i = nb := by omega
    have : rem + (k + 1) = (rem + k) + 1 := by omega
    rw [this]
    simp only [sizesFrom, hne, if_false]
    have hz : ¬size = 0 := by omega
    simp only [hz, if_false, List.replicate_succ]
    rw [ih rem (i + 1) size (by omega) hs]
    have : i + 1 + k = i + (k + 1) := by omega
    rw [this]
    simp

theorem sizesFrom_full (nb w size : Nat) (hnb : nb < w) (hs : 0 < size) :
    sizesFrom nb w 0 size =
      List.replicate nb size ++
        (if size - 1 = 0 then [] else List.replicate (w - nb) (size - 1)) := by
  obtain ⟨m, hm⟩ : ∃ m, w - nb = m + 1 := ⟨w - nb - 1, by omega⟩
  have hw : w = (m + 1) + nb := by omega
  rw [hw, sizesFrom_pre nb nb (m + 1) 0 size (by omega) hs]
  simp only [Nat.zero_add]
  rw [sizesFrom_pivot]
  by_cases hz : size - 1 = 0
  · simp [hz]
  · simp [hz, List.replicate_succ]

theorem chunks_length {α : Type} :
    ∀ (sz : List Nat) (l : List α), (chunks sz l).length = sz.length := by
  intro sz
  induction sz with
  | nil => intro l; rfl
  | cons s rest ih => intro l; simp [chunks, ih]

theorem filter_decide_replicate (n x : Nat) :
    (List.replicate n x).filter (fun s => decide (s ≠ 0)) =
      if x = 0 then [] else List.replicate n x := by
  induction n with
  | zero => simp
  | succ n ih =>
    by_cases hx : x = 0 <;> simp [List.replicate_succ, List.filter_cons, hx, ih]

/-- Claim C5: for a configured non-ICMP protocol with `workers ≥ 1`, the
planner splits the port list into contiguous slices — `r` of size `d+1`
followed by `workers − r` of size `d`, where `d = len/workers` and
`r = len mod workers` (equal to `len − d·workers`), zero-size slices
omitted — whose concatenation is exactly the port list and whose count
is `min(workers, len)`. -/
theorem createJobs_balanced (t : TargetCfg) (proto : String) (ports : List String)
    (hw : 0 < t.workers) (hcfg : alookup t.portsToScan proto = some ports)
    (hicmp : ¬proto = "icmp") :
    ∃ jobs, createJobs t proto = some jobs ∧
      (jobs.map JobMsg.ports).flatten = ports ∧
      jobs.length = min t.workers ports.length ∧
      jobs.map (fun j => j.ports.length) =
        (List.replicate (ports.length % t.workers) (ports.length / t.workers + 1) ++
          List.replicate (t.workers - ports.length % t.workers)
            (ports.length / t.workers)).filter (fun s => decide (s ≠ 0)) := by
  have hdm := Nat.div_add_mod ports.length t.workers
  have hrw : ports.length % t.workers < t.workers := Nat.mod_lt _ hw
  have hnb : ports.length - ports.length / t.workers * t.workers =
      ports.length % t.workers := by
    rw [Nat.mul_comm (ports.length / t.workers) t.workers]
    omega
  have hjobs : createJobs t proto =
      some ((chunks (sizesFrom (ports.length % t.workers) t.workers 0
          (ports.length / t.workers + 1)) ports).map
        (fun c => (⟨"", 0, t.ip, proto, c⟩ : JobMsg))) := by
    simp only [createJobs, hcfg, hicmp, if_false]
    rw [hnb, jobsLoop_eq_chunks, List.drop_zero]
  have hsz : sizesFrom (ports.length % t.workers) t.workers 0
      (ports.length / t.workers + 1) =
      List.replicate (ports.length % t.workers) (ports.length / t.workers + 1) ++
        (if ports.length / t.workers = 0 then []
         else List.replicate (t.workers - ports.length % t.workers)
           (ports.length / t.workers)) := by
    rw [sizesFrom_full _ _ _ hrw (Nat.succ_pos _)]
    simp
  have hsum : (List.replicate (ports.length % t.workers) (ports.length / t.workers + 1) ++
      (if ports.length / t.workers = 0 then []
       else List.replicate (t.workers - ports.length % t.workers)
         (ports.length / t.workers))).sum = ports.length := by
    by_cases hd0 : ports.length / t.workers = 0
    · have hlw : ports.length < t.workers := (Nat.div_eq_zero_iff hw).mp hd0
      have hrl : ports.length % t.workers = ports.length := Nat.mod_eq_of_lt hlw
      simp [hd0, hrl, List.sum_replicate]
    · have h1 : ports.length % t.workers * (ports.length / t.workers + 1) =
          ports.length % t.workers * (ports.length / t.workers) +
            ports.length % t.workers := by ring
      have h2 : (t.workers - ports.length % t.workers) * (ports.length / t.workers) =
          t.workers * (ports.length / t.workers) -
            ports.length % t.workers * (ports.length / t.workers) :=
        Nat.sub_mul _ _ _
      have h3 : ports.length % t.workers * (ports.length / t.workers) ≤
          t.workers * (ports.length / t.workers) :=
        Nat.mul_le_mul_right _ (by omega)
      simp only [hd0, if_false, List.sum_append, List.sum_replicate, smul_eq_mul]
      omega
  refine ⟨_, hjobs, ?_, ?_, ?_⟩
  · rw [List.map_map]
    have hcomp : (JobMsg.ports ∘ fun c => (⟨"", 0, t.ip, proto, c⟩ : JobMsg)) =
        fun c : List String => c := rfl
    rw [hcomp, List.map_id', hsz]
    exact chunks_flatten _ _ hsum
  · rw [List.length_map, chunks_length, hsz]
    by_cases hd0 : ports.length / t.workers = 0
    · have hlw : ports.length < t.workers := (Nat.div_eq_zero_iff hw).mp hd0
      have hrl : ports.length % t.workers = ports.length := Nat.mod_eq_of_lt hlw
      simp [hd0, hrl]
      omega
    · have hwl : t.workers ≤ ports.length := by
        by_contra hlt
        push_neg at hlt
        exact hd0 ((Nat.div_eq_zero_iff hw).mpr hlt)
      simp [hd0]
      omega
  · rw [List.map_map]
    have hcomp : ((fun j : JobMsg => j.ports.length) ∘
        fun c => (⟨"", 0, t.ip, proto, c⟩ : JobMsg)) =
        fun c : List String => c.length := rfl
    rw [hcomp]
    have := chunks_map_length (sizesFrom (ports.length % t.workers) t.workers 0
      (ports.length / t.workers + 1)) ports (by rw [hsz]; exact hsum)
    rw [show (List.length : List String → Nat) = fun c => c.length from rfl] at this
    rw [this, hsz, List.filter_append, filter_decide_replicate, filter_decide_replicate]
    simp

theorem createJobs_balanced_witness :
    (0 : Nat) < 3 ∧
    alookup [("tcp", ["1", "2", "3", "4", "5", "6", "7", "8", "9", "10"])] "tcp" =
      some ["1", "2", "3", "4", "5", "6", "7", "8", "9", "10"] ∧
    ¬("tcp" : String) = "icmp" ∧
    ∃ jobs, createJobs ⟨"t", "1.2.3.4", 3,
        [("tcp", ["1", "2", "3", "4", "5", "6", "7", "8", "9", "10"])]⟩ "tcp" = some jobs ∧
      (jobs.map JobMsg.ports).flatten =
        ["1", "2", "3", "4", "5", "6", "7", "8", "9", "10"] ∧
      jobs.length =
        min 3 (["1", "2", "3", "4", "5", "6", "7", "8", "9", "10"] : List String).length ∧
      jobs.map (fun j => j.ports.length) =
        (List.replicate (10 % 3) (10 / 3 + 1) ++
          List.replicate (3 - 10 % 3) (10 / 3)).filter (fun s => decide (s ≠ 0)) :=
  ⟨by decide, by decide, by decide,
    createJobs_balanced ⟨"t", "1.2.3.4", 3,
      [("tcp", ["1", "2", "3", "4", "5", "6", "7", "8", "9", "10"])]⟩ "tcp"
      ["1", "2", "3", "4", "5", "6", "7", "8", "9", "10"]
      (by decide) (by decide) (by decide)⟩

theorem receiverRun_single (tName : String) (expectedOf : String → String)
    (i : String) (n : Nat) :
    ∀ (msgs : List JobMsg) (s : AggState) (k : Nat) (acc : List String),
      (∀ m ∈ msgs, m.id = i ∧ m.jobCount = n) →
      (alookup s.jobsStarted i).getD 0 = k →
      (alookup s.openPorts i).getD [] = acc →
      k + msgs.length = n → msgs ≠ [] →
      ∃ r, (receiverRun tName expectedOf s msgs).2 = [r] ∧
        r.OpenPorts = acc ++ (msgs.map JobMsg.ports).flatten := by
  intro msgs
  induction msgs with
  | nil => intro s k acc _ _ _ _ hne; exact absurd rfl hne
  | cons m rest ih =>
    intro s k acc hall hk hacc hlen _
    have hmid : m.id = i := (hall m (List.mem_cons_self m rest)).1
    have hmjc : m.jobCount = n := (hall m (List.mem_cons_self m rest)).2
    cases rest with
    | nil =>
      have hkn : k + 1 = n := by simpa using hlen
      simp only [receiverRun, receiverStep]
      rw [hmid, hk, hacc, hmjc, if_pos hkn]
      exact ⟨_, rfl, by simp⟩
    | cons m2 rest2 =>
      have hlt : k + 1 < n := by
        simp only [List.length_cons] at hlen
        omega
      simp only [receiverRun, receiverStep]
      rw [hmid, hk, hacc, hmjc, if_neg (by omega)]
      obtain ⟨r, hr1, hr2⟩ := ih
        ⟨aset s.openPorts i (acc ++ m.ports), aset s.jobsStarted i (k + 1), s.startTime⟩
        (k + 1) (acc ++ m.ports)
        (fun x hx => hall x (List.mem_cons_of_mem m hx))
        (by rw [alookup_aset_self]; rfl)
        (by rw [alookup_aset_self]; rfl)
        (by simp only [List.length_cons] at hlen ⊢; omega)
        (by simp)
      refine ⟨r, by simpa using hr1, ?_⟩
      rw [hr2]
      simp

/-- Claim C8: when all partial results of one scan id arrive — in any
order — the receiver emits exactly one scan outcome, whose open-port set
is the union of the port lists of all the partials; two permuted arrival
orders yield the same open set. -/
theorem aggregation_order_independent (tName : String) (expectedOf : String → String)
    (i : String) (msgs1 msgs2 : List JobMsg)
    (hperm : msgs1.Perm msgs2) (hne : msgs1 ≠ [])
    (hall : ∀ m ∈ msgs1, m.id = i ∧ m.jobCount = msgs1.length) :
    ∃ r1 r2,
      (receiverRun tName expectedOf emptyAgg msgs1).2 = [r1] ∧
      (receiverRun tName expectedOf emptyAgg msgs2).2 = [r2] ∧
      (∀ p, p ∈ r1.OpenPorts ↔ ∃ m ∈ msgs1, p ∈ m.ports) ∧
      r1.OpenPorts.toFinset = r2.OpenPorts.toFinset := by
  have hall2 : ∀ m ∈ msgs2, m.id = i ∧ m.jobCount = msgs1.length :=
    fun m hm => hall m (hperm.symm.subset hm)
  have hne2 : msgs2 ≠ [] := by
    intro h
    rw [h] at hperm
    exact hne hperm.eq_nil
  obtain ⟨r1, h1, ho1⟩ := receiverRun_single tName expectedOf i msgs1.length msgs1
    emptyAgg 0 [] hall rfl rfl (by simp) hne
  obtain ⟨r2, h2, ho2⟩ := receiverRun_single tName expectedOf i msgs1.length msgs2
    emptyAgg 0 [] hall2 rfl rfl (by simp [hperm.length_eq.symm]) hne2
  have hmem1 : ∀ p, p ∈ r1.OpenPorts ↔ ∃ m ∈ msgs1, p ∈ m.ports := by
    intro p
    rw [ho1]
    simp
  have hmem2 : ∀ p, p ∈ r2.OpenPorts ↔ ∃ m ∈ msgs2, p ∈ m.ports := by
    intro p
    rw [ho2]
    simp
  refine ⟨r1, r2, h1, h2, hmem1, ?_⟩
  ext p
  rw [List.mem_toFinset, List.mem_toFinset, hmem1 p, hmem2 p]
  constructor
  · rintro ⟨m, hm, hp⟩
    exact ⟨m, hperm.subset hm, hp⟩
  · rintro ⟨m, hm, hp⟩
    exact ⟨m, hperm.symm.subset hm, hp⟩

theorem aggregation_order_independent_witness :
    ([⟨"x", 2, "ip", "tcp", ["22"]⟩, ⟨"x", 2, "ip", "tcp", ["80"]⟩] : List JobMsg).Perm
      [⟨"x", 2, "ip", "tcp", ["80"]⟩, ⟨"x", 2, "ip", "tcp", ["22"]⟩] ∧
    ∃ r1 r2,
      (receiverRun "t" (fun _ => "") emptyAgg
        [⟨"x", 2, "ip", "tcp", ["22"]⟩, ⟨"x", 2, "ip", "tcp", ["80"]⟩]).2 = [r1] ∧
      (receiverRun "t" (fun _ => "") emptyAgg
        [⟨"x", 2, "ip", "tcp", ["80"]⟩, ⟨"x", 2, "ip", "tcp", ["22"]⟩]).2 = [r2] ∧
      (∀ p, p ∈ r1.OpenPorts ↔
        ∃ m ∈ ([⟨"x", 2, "ip", "tcp", ["22"]⟩,
          ⟨"x", 2, "ip", "tcp", ["80"]⟩] : List JobMsg), p ∈ m.ports) ∧
      r1.OpenPorts.toFinset = r2.OpenPorts.toFinset :=
  ⟨List.Perm.swap (⟨"x", 2, "ip", "tcp", ["80"]⟩ : JobMsg)
      (⟨"x", 2, "ip", "tcp", ["22"]⟩ : JobMsg) [],
    aggregation_order_independent "t" (fun _ => "") "x" _ _
      (List.Perm.swap (⟨"x", 2, "ip", "tcp", ["80"]⟩ : JobMsg)
        (⟨"x", 2, "ip", "tcp", ["22"]⟩ : JobMsg) [])
      (by decide) (by decide)⟩
